import Mathlib

/-!
# Verification of the pythran elementwise n-ary broadcasting expression engine

The repository sources provided contain the operation-binding glue
(`numpy/bitwise_xor.hpp`, which instantiates the n-ary expression machinery
with `pythonic::operator_::__xor__`) and the `io._io.TextIOWrapper.readline`
functor alias.  The core engine itself (ShapeBroadcaster, TypePromoter,
BroadcastIndexMapper, LazyNaryExpression) is not among the provided sources,
so those components are modelled from the specification, as noted on each
definition.
-/

set_option autoImplicit false

/-! ## ShapeBroadcaster -/

/-- Modelled from the spec: a `Shape` is an ordered sequence of non-negative
integers, one per dimension; rank is the sequence length; rank 0 is a scalar. -/
abbrev Shape := List Nat

/-- Modelled from the spec (§4.1): right-align a shape under rank `r` by
padding it with implicit leading size-1 dimensions. -/
def padLeft (r : Nat) (s : Shape) : Shape :=
  List.replicate (r - s.length) 1 ++ s

/-- Modelled from the spec (§4.1): the size of shape `s` at right-aligned
dimension position `i`, under output rank `r` (implicit leading 1s). -/
def alignedSize (s : Shape) (r i : Nat) : Nat :=
  (padLeft r s).getD i 1

/-- Modelled from the spec (§3): the output rank of a broadcast is the
maximum of the operand ranks. -/
def maxRank (shapes : List Shape) : Nat :=
  shapes.foldr (fun s m => max s.length m) 0

/-- Modelled from the spec (§4.1): the operand sizes collected at aligned
dimension position `i`. -/
def dimSizes (shapes : List Shape) (r i : Nat) : List Nat :=
  shapes.map (fun s => alignedSize s r i)

/-- Modelled from the spec (§4.1): combine the collected sizes of one aligned
dimension position: if all distinct non-1 sizes seen are equal the output size
is that common value (or 1 if all are 1); otherwise the position is
incompatible (`none`). -/
def broadcastDim (sizes : List Nat) : Option Nat :=
  match sizes.filter (fun d => d ≠ 1) with
  | [] => some 1
  | x :: rest => if rest.all (fun d => d = x) then some x else none

/-- Modelled from the spec (§7): `IncompatibleShapeError` carries the
offending dimension index and the conflicting (non-1) sizes there. -/
structure IncompatibleShapeError where
  dim : Nat
  sizes : List Nat
deriving DecidableEq, Repr

/-- Modelled from the spec (§4.1): process aligned dimension positions
`i, i+1, …, i+n-1` in order, combining each position with `broadcastDim`
and failing at the first incompatible position. -/
def broadcastAux (shapes : List Shape) (r : Nat) :
    Nat → Nat → Except IncompatibleShapeError Shape
  | _, 0 => Except.ok []
  | i, Nat.succ n =>
    match broadcastDim (dimSizes shapes r i) with
    | some v =>
      match broadcastAux shapes r (i + 1) n with
      | Except.ok rest => Except.ok (v :: rest)
      | Except.error e => Except.error e
    | none => Except.error ⟨i, (dimSizes shapes r i).filter (fun d => d ≠ 1)⟩

/-- Modelled from the spec (§4.1): `broadcast` right-aligns all shapes by
padding shorter ones with implicit leading size-1 dimensions up to the maximum
rank, then combines each aligned dimension position, failing with
`IncompatibleShapeError` at the first position whose distinct non-1 sizes
differ. Pure and total over well-formed shapes. -/
def broadcast (shapes : List Shape) : Except IncompatibleShapeError Shape :=
  broadcastAux shapes (maxRank shapes) 0 (maxRank shapes)

/-! ## BroadcastIndexMapper -/

/-- Modelled from the spec (§4.3): map a multi-index in output space to one
operand's index space.  The operand shape is right-aligned under the output
rank (implicit leading 1s); for each dimension of the operand, if its
(aligned) size is 1, the mapped index component is 0 regardless of the output
index's value there; otherwise the component is copied unchanged from
`outputIndex`.  The resulting operand-local index has the operand's rank. -/
def BroadcastIndexMapper.map (outputIndex : List Nat) (operandShape : Shape)
    (outputRank : Nat) : List Nat :=
  (List.range operandShape.length).map fun k =>
    if operandShape.getD k 1 = 1 then 0
    else outputIndex.getD (outputRank - operandShape.length + k) 0

/-- A multi-index is valid for a shape when it has the shape's rank and every
component is below the corresponding dimension size. -/
def ValidIndex (idx : List Nat) (s : Shape) : Prop :=
  idx.length = s.length ∧ ∀ k, k < idx.length → idx.getD k 0 < s.getD k 1

instance (idx : List Nat) (s : Shape) : Decidable (ValidIndex idx s) := by
  unfold ValidIndex; infer_instance

/-! ## LazyNaryExpression (binary instance) -/

/-- Modelled from the spec (§3, §6): an operand descriptor exposes a shape
and an index-access capability returning the operand's value at an
operand-local multi-index. -/
structure Operand (α : Type) where
  shape : Shape
  value : List Nat → α

/-- Modelled from the spec (§4.4): a lazy binary elementwise expression: the
elementwise function and the fixed pair of operands; no other state, no output
storage. -/
structure LazyBinExpr (α β γ : Type) where
  f : α → β → γ
  op1 : Operand α
  op2 : Operand β

/-- Modelled from the spec (§4.4): the output rank, the maximum of the
operand ranks. -/
def LazyBinExpr.outRank {α β γ : Type} (e : LazyBinExpr α β γ) : Nat :=
  max e.op1.shape.length e.op2.shape.length

/-- Modelled from the spec (§4.4): `shape()` — the broadcast output shape of
the two operand shapes. -/
def LazyBinExpr.shape {α β γ : Type} (e : LazyBinExpr α β γ) :
    Except IncompatibleShapeError Shape :=
  broadcast [e.op1.shape, e.op2.shape]

/-- Modelled from the spec (§4.4): `at(outputIndex)` — for each operand,
compute its local index via the BroadcastIndexMapper, fetch the operand's
value there, and apply the elementwise function to the fetched values. -/
def LazyBinExpr.atIdx {α β γ : Type} (e : LazyBinExpr α β γ)
    (outputIndex : List Nat) : γ :=
  e.f (e.op1.value (BroadcastIndexMapper.map outputIndex e.op1.shape e.outRank))
      (e.op2.value (BroadcastIndexMapper.map outputIndex e.op2.shape e.outRank))

/-- Modelled from the spec (§4.4, §5): `at` as observed by a stateful caller:
it returns the computed value together with the expression as it stands after
the call; per the spec there is no caching and no observable side effect, so
the expression comes back unchanged. -/
def LazyBinExpr.atRun {α β γ : Type} (e : LazyBinExpr α β γ)
    (outputIndex : List Nat) : γ × LazyBinExpr α β γ :=
  (e.atIdx outputIndex, e)

/-! ## TypePromoter -/

/-- Modelled from the spec (§4.2): the element types of the fixed promotion
lattice, `bool < int8 < int16 < int32 < int64 < float32 < float64 < complex64
< complex128`.  The spec's signed/unsigned side rule is vacuous here because
the enumerated lattice contains no unsigned types. -/
inductive ElementType where
  | bool | int8 | int16 | int32 | int64
  | float32 | float64 | complex64 | complex128
deriving DecidableEq, Repr, Fintype

/-- Modelled from the spec (§4.2): position of an element type in the total
order of the promotion lattice. -/
def ElementType.rank : ElementType → Nat
  | .bool => 0 | .int8 => 1 | .int16 => 2 | .int32 => 3 | .int64 => 4
  | .float32 => 5 | .float64 => 6 | .complex64 => 7 | .complex128 => 8

/-- Modelled from the spec (§4.2): pairwise promotion — the lattice maximum
of the two types (the signed/unsigned adjustment is vacuous on this
lattice). -/
def promote2 (a b : ElementType) : ElementType :=
  if a.rank ≤ b.rank then b else a

/-- Modelled from the spec (§4.2): `promote` — the lattice maximum across all
inputs, applied pairwise.  Pure, total, no failure mode. -/
def promote (ts : List ElementType) : ElementType :=
  ts.foldl promote2 ElementType.bool

/-! ## OperationRegistry glue present in the sources -/

/-- Modelled from the spec: `pythonic::operator_::__xor__`, the elementwise
bitwise-xor function (its header is included by `numpy/bitwise_xor.hpp` but
is not among the provided sources). -/
def __xor__ (a b : Nat) : Nat :=
  a ^^^ b

/-- Modelled from the spec (§2, §9): the n-ary expression instantiation
mechanism (`numpy_nary_expr.hpp`, not among the provided sources): a generic
expression type parameterized over an elementwise function value. -/
def numpyNaryExpr {α β γ : Type} (f : α → β → γ) (op1 : Operand α)
    (op2 : Operand β) : LazyBinExpr α β γ :=
  ⟨f, op1, op2⟩

/-- From `src/pythran/pythonic/include/numpy/bitwise_xor.hpp`: the named
operation `bitwise_xor` instantiates the n-ary expression machinery with
`NUMPY_NARY_FUNC_SYM = pythonic::operator_::__xor__`. -/
def bitwise_xor (op1 op2 : Operand Nat) : LazyBinExpr Nat Nat Nat :=
  numpyNaryExpr __xor__ op1 op2

/-- Modelled from the spec (§6, §9): `__builtin__::file::readline`, the
opaque line-reading collaborator (`__builtin__/file/readline.hpp` is not
among the provided sources): produce the next line as text, or signal
end-of-stream, advancing the stream. -/
def __builtin__.file.readline (stream : List String) :
    Option String × List String :=
  match stream with
  | [] => (none, [])
  | l :: ls => (some l, ls)

/-- From `src/pythran/pythonic/include/io/_io/TextIOWrapper/readline.hpp`:
`USING_FUNCTOR(readline, __builtin__::file::functor::readline)` — the
`TextIOWrapper` readline is the very same functor as the file readline. -/
def io._io.TextIOWrapper.readline :=
  __builtin__.file.readline

/-! ## Supporting lemmas -/

theorem alignedSize_eq_one_or_mem (s : Shape) (r i : Nat) :
    alignedSize s r i = 1 ∨ alignedSize s r i ∈ s := by
  unfold alignedSize
  by_cases h : i < (padLeft r s).length
  · rw [List.getD_eq_getElem _ _ h]
    have hm : (padLeft r s)[i] ∈ List.replicate (r - s.length) 1 ++ s :=
      List.getElem_mem h
    rcases List.mem_append.1 hm with h1 | h2
    · exact Or.inl (List.eq_of_mem_replicate h1)
    · exact Or.inr h2
  · rw [List.getD_eq_default _ _ (Nat.le_of_not_lt h)]
    exact Or.inl rfl

theorem foldr_max_eq_one (l : List Nat) (h : ∀ d ∈ l, d = 1) :
    l.foldr max 1 = 1 := by
  induction l with
  | nil => rfl
  | cons a t ih =>
    have ha := h a (List.mem_cons_self a t)
    have ht := ih (fun d hd => h d (List.mem_cons_of_mem a hd))
    simp [List.foldr, ha, ht]

theorem foldr_max_eq_of_mem (x : Nat) (hx : 1 ≤ x) :
    ∀ l : List Nat, x ∈ l → (∀ d ∈ l, d = 1 ∨ d = x) → l.foldr max 1 = x := by
  intro l
  induction l with
  | nil => intro h; cases h
  | cons a t ih =>
    intro hmem hall
    by_cases hxt : x ∈ t
    · have ht := ih hxt (fun d hd => hall d (List.mem_cons_of_mem a hd))
      rcases hall a (List.mem_cons_self a t) with ha | ha
      · simp [List.foldr, ht, ha, Nat.max_eq_right hx]
      · simp [List.foldr, ht, ha]
    · have hax : a = x := by
        rcases List.mem_cons.1 hmem with h | h
        · exact h.symm
        · exact absurd h hxt
      have ht : t.foldr max 1 = 1 := by
        apply foldr_max_eq_one
        intro d hd
        rcases hall d (List.mem_cons_of_mem a hd) with h1 | h1
        · exact h1
        · exact absurd (by rw [← h1]; exact hd) hxt
      simp [List.foldr, hax, ht, Nat.max_eq_left hx]

theorem broadcastDim_eq_foldr_max (sizes : List Nat)
    (hpos : ∀ d ∈ sizes, 1 ≤ d) {v : Nat}
    (h : broadcastDim sizes = some v) : v = sizes.foldr max 1 := by
  unfold broadcastDim at h
  split at h
  case h_1 heq =>
    injection h with h
    rw [← h]
    symm
    apply foldr_max_eq_one
    intro d hd
    have := List.filter_eq_nil_iff.1 heq d hd
    simpa using this
  case h_2 x rest heq =>
    split at h
    case isTrue hall =>
      injection h with h
      have hxf : x ∈ sizes.filter (fun d => decide (d ≠ 1)) := by
        rw [heq]; exact List.mem_cons_self x rest
      obtain ⟨hxs, hx1⟩ := List.mem_filter.1 hxf
      have hx1' : x ≠ 1 := of_decide_eq_true hx1
      rw [← h]
      symm
      apply foldr_max_eq_of_mem x (hpos x hxs) sizes hxs
      intro d hd
      by_cases hd1 : d = 1
      · exact Or.inl hd1
      · have hdf : d ∈ sizes.filter (fun d => decide (d ≠ 1)) :=
          List.mem_filter.2 ⟨hd, by simpa using hd1⟩
        rw [heq] at hdf
        rcases List.mem_cons.1 hdf with h2 | h2
        · exact Or.inr h2
        · exact Or.inr (of_decide_eq_true (List.all_eq_true.1 hall d h2))
    case isFalse => exact Option.noConfusion h

theorem broadcastDim_pair_none_iff (a b : Nat) :
    broadcastDim [a, b] = none ↔ a ≠ 1 ∧ b ≠ 1 ∧ a ≠ b := by
  by_cases ha : a = 1 <;> by_cases hb : b = 1 <;> by_cases hab : a = b <;>
    simp [broadcastDim, List.filter_cons, ha, hb, hab, ne_comm]

theorem broadcastAux_ok_length (shapes : List Shape) (r : Nat) :
    ∀ n i out, broadcastAux shapes r i n = Except.ok out → out.length = n := by
  intro n
  induction n with
  | zero =>
    intro i out h
    injection h with h
    rw [← h]
    rfl
  | succ n ih =>
    intro i out h
    simp only [broadcastAux] at h
    split at h
    case h_1 v heq =>
      split at h
      case h_1 rest heq2 =>
        injection h with h
        rw [← h]
        simp [ih (i + 1) rest heq2]
      case h_2 => exact Except.noConfusion h
    case h_2 => exact Except.noConfusion h

theorem broadcastAux_ok_getD (shapes : List Shape) (r : Nat) :
    ∀ n i out, broadcastAux shapes r i n = Except.ok out →
      ∀ j, j < n →
        broadcastDim (dimSizes shapes r (i + j)) = some (out.getD j 0) := by
  intro n
  induction n with
  | zero =>
    intro i out _ j hj
    exact absurd hj (Nat.not_lt_zero j)
  | succ n ih =>
    intro i out h j hj
    simp only [broadcastAux] at h
    split at h
    case h_1 v heq =>
      split at h
      case h_1 rest heq2 =>
        injection h with h
        rw [← h]
        cases j with
        | zero => simpa using heq
        | succ j =>
          have hrec := ih (i + 1) rest heq2 j (Nat.lt_of_succ_lt_succ hj)
          rw [show i + (j + 1) = (i + 1) + j by omega]
          simpa using hrec
      case h_2 => exact Except.noConfusion h
    case h_2 => exact Except.noConfusion h

theorem broadcastAux_error_spec (shapes : List Shape) (r : Nat) :
    ∀ n i e, broadcastAux shapes r i n = Except.error e →
      i ≤ e.dim ∧ e.dim < i + n ∧
      broadcastDim (dimSizes shapes r e.dim) = none ∧
      e.sizes = (dimSizes shapes r e.dim).filter (fun d => d ≠ 1) := by
  intro n
  induction n with
  | zero =>
    intro i e h
    exact Except.noConfusion h
  | succ n ih =>
    intro i e h
    simp only [broadcastAux] at h
    split at h
    case h_1 v heq =>
      split at h
      case h_1 => exact Except.noConfusion h
      case h_2 e' heq2 =>
        injection h with h
        rw [← h]
        obtain ⟨h1, h2, h3, h4⟩ := ih (i + 1) e' heq2
        exact ⟨by omega, by omega, h3, h4⟩
    case h_2 heq =>
      injection h with h
      rw [← h]
      refine ⟨Nat.le_refl i, ?_, heq, rfl⟩
      show i < i + (n + 1)
      omega

theorem dimSizes_pos (shapes : List Shape)
    (hpos : ∀ s, s ∈ shapes → ∀ d, d ∈ s → 1 ≤ d) (r i : Nat) :
    ∀ d ∈ dimSizes shapes r i, 1 ≤ d := by
  intro d hd
  obtain ⟨s, hs, hds⟩ := List.mem_map.1 hd
  rcases alignedSize_eq_one_or_mem s r i with h1 | h2
  · rw [← hds, h1]
  · rw [← hds]
    exact hpos s hs _ h2

theorem broadcast_error_of_none (shapes : List Shape) (j : Nat)
    (hj : j < maxRank shapes)
    (hnone : broadcastDim (dimSizes shapes (maxRank shapes) j) = none) :
    ∃ e, broadcast shapes = Except.error e := by
  cases hb : broadcast shapes with
  | ok out =>
    have := broadcastAux_ok_getD shapes (maxRank shapes) (maxRank shapes) 0 out hb j hj
    rw [Nat.zero_add] at this
    rw [this] at hnone
    exact Option.noConfusion hnone
  | error e => exact ⟨e, rfl⟩

/-! ## Claim C1 -/

/-- The rank/size characterization of a successful broadcast: the output rank
is the maximum operand rank, each output size is the maximum of the aligned
operand sizes at that position, and for two operands, when exactly one has
size 1 at a position, the output equals the other's (non-1) size there. -/
def BroadcastMaxSpec (shapes : List Shape) (out : Shape) : Prop :=
  out.length = maxRank shapes ∧
  (∀ i, i < out.length →
    out.getD i 0 = (dimSizes shapes (maxRank shapes) i).foldr max 1) ∧
  (∀ s1 s2, shapes = [s1, s2] → ∀ i, i < out.length →
    ((alignedSize s1 (maxRank shapes) i = 1 →
        alignedSize s2 (maxRank shapes) i ≠ 1 →
        out.getD i 0 = alignedSize s2 (maxRank shapes) i) ∧
     (alignedSize s2 (maxRank shapes) i = 1 →
        alignedSize s1 (maxRank shapes) i ≠ 1 →
        out.getD i 0 = alignedSize s1 (maxRank shapes) i)))

/-- C1 (amended: all dimension sizes positive): for every sequence of
mutually compatible shapes — that is, whenever `broadcast` succeeds — the
returned shape has rank `maxRank`, its size at each right-aligned position is
the maximum over the operands of their aligned size there, and when exactly
one of two operands has size 1 at a position the output equals the non-1
value.  The positivity hypothesis is required: with a size-0 dimension the
output size is 0, not the maximum (see the counterexample). -/
theorem C1_broadcast_rank_and_max (shapes : List Shape) (out : Shape)
    (hpos : ∀ s, s ∈ shapes → ∀ d, d ∈ s → 1 ≤ d)
    (hok : broadcast shapes = Except.ok out) :
    BroadcastMaxSpec shapes out := by
  have hlen := broadcastAux_ok_length shapes (maxRank shapes) (maxRank shapes) 0 out hok
  have hget := broadcastAux_ok_getD shapes (maxRank shapes) (maxRank shapes) 0 out hok
  have hdim := dimSizes_pos shapes hpos (maxRank shapes)
  have hmax : ∀ i, i < out.length →
      out.getD i 0 = (dimSizes shapes (maxRank shapes) i).foldr max 1 := by
    intro i hi
    have hi' : i < maxRank shapes := hlen ▸ hi
    have h := hget i hi'
    rw [Nat.zero_add] at h
    exact broadcastDim_eq_foldr_max _ (hdim i) h
  refine ⟨hlen, hmax, ?_⟩
  intro s1 s2 hsh i hi
  subst hsh
  have hd2 : dimSizes [s1, s2] (maxRank [s1, s2]) i =
      [alignedSize s1 (maxRank [s1, s2]) i, alignedSize s2 (maxRank [s1, s2]) i] := rfl
  have hm := hmax i hi
  rw [hd2] at hm
  have ha : 1 ≤ alignedSize s1 (maxRank [s1, s2]) i :=
    hdim i _ (by rw [hd2]; exact List.mem_cons_self _ _)
  have hb : 1 ≤ alignedSize s2 (maxRank [s1, s2]) i :=
    hdim i _ (by rw [hd2]; exact List.mem_cons_of_mem _ (List.mem_cons_self _ _))
  constructor
  · intro h1 _
    rw [hm, h1]
    simp only [List.foldr_cons, List.foldr_nil]
    rw [Nat.max_eq_left hb, Nat.max_eq_right hb]
  · intro h2 _
    rw [hm, h2]
    simp only [List.foldr_cons, List.foldr_nil]
    rw [Nat.max_self, Nat.max_eq_left ha]

/-- C1 counterexample: the shapes `[0]` and `[1]` are mutually compatible
(one side is 1) and broadcast to `[0]`, but the claimed per-dimension maximum
is `max 0 1 = 1 ≠ 0`, so the claim as stated (without positivity) is false. -/
theorem C1_counterexample :
    broadcast [[0], [1]] = Except.ok [0] ∧
    ¬ (([0] : Shape).getD 0 0 =
        (dimSizes [[0], [1]] (maxRank [[0], [1]]) 0).foldr max 1) :=
  ⟨rfl, by decide⟩

/-- C1 witness: the amended theorem applied to the concrete compatible pair
`[3,1]`, `[1,4]`, whose broadcast is `[3,4]`. -/
theorem C1_broadcast_rank_and_max_witness :
    (∀ s, s ∈ ([[3, 1], [1, 4]] : List Shape) → ∀ d, d ∈ s → 1 ≤ d) ∧
    broadcast [[3, 1], [1, 4]] = Except.ok [3, 4] ∧
    BroadcastMaxSpec [[3, 1], [1, 4]] [3, 4] :=
  ⟨by decide, rfl, C1_broadcast_rank_and_max [[3, 1], [1, 4]] [3, 4] (by decide) rfl⟩

/-! ## Claim C2 -/

/-- Two shapes have a broadcasting conflict: some right-aligned dimension
position holds two differing non-1 sizes. -/
def hasConflict (s1 s2 : Shape) : Bool :=
  (List.range (maxRank [s1, s2])).any fun i =>
    (alignedSize s1 (maxRank [s1, s2]) i != 1) &&
    (alignedSize s2 (maxRank [s1, s2]) i != 1) &&
    (alignedSize s1 (maxRank [s1, s2]) i != alignedSize s2 (maxRank [s1, s2]) i)

/-- What a failing broadcast of two shapes must report: an offending
dimension — two differing non-1 aligned sizes there — together with the two
conflicting sizes. -/
def ReportsConflict (s1 s2 : Shape) (e : IncompatibleShapeError) : Prop :=
  e.dim < maxRank [s1, s2] ∧
  alignedSize s1 (maxRank [s1, s2]) e.dim ≠ 1 ∧
  alignedSize s2 (maxRank [s1, s2]) e.dim ≠ 1 ∧
  alignedSize s1 (maxRank [s1, s2]) e.dim ≠ alignedSize s2 (maxRank [s1, s2]) e.dim ∧
  e.sizes = [alignedSize s1 (maxRank [s1, s2]) e.dim,
             alignedSize s2 (maxRank [s1, s2]) e.dim]

/-- C2: broadcasting two shapes fails exactly when some aligned dimension
position holds two differing non-1 sizes; the error then carries an offending
dimension index and the conflicting sizes; and the scenario `[2,3]` vs
`[2,4]` fails at the trailing dimension with sizes 3 vs 4. -/
theorem C2_broadcast_incompatible (s1 s2 : Shape) :
    (hasConflict s1 s2 = true ↔ ∃ e, broadcast [s1, s2] = Except.error e) ∧
    (∀ e, broadcast [s1, s2] = Except.error e → ReportsConflict s1 s2 e) ∧
    broadcast [[2, 3], [2, 4]] = Except.error ⟨1, [3, 4]⟩ := by
  have herr : ∀ e, broadcast [s1, s2] = Except.error e → ReportsConflict s1 s2 e := by
    intro e he
    obtain ⟨_, hlt, hnone, hsz⟩ :=
      broadcastAux_error_spec [s1, s2] (maxRank [s1, s2]) (maxRank [s1, s2]) 0 e he
    rw [Nat.zero_add] at hlt
    have hd2 : dimSizes [s1, s2] (maxRank [s1, s2]) e.dim =
        [alignedSize s1 (maxRank [s1, s2]) e.dim,
         alignedSize s2 (maxRank [s1, s2]) e.dim] := rfl
    rw [hd2] at hnone hsz
    obtain ⟨ha, hb, hab⟩ := (broadcastDim_pair_none_iff _ _).1 hnone
    refine ⟨hlt, ha, hb, hab, ?_⟩
    rw [hsz]
    simp [List.filter_cons, ha, hb]
  refine ⟨⟨?_, ?_⟩, herr, rfl⟩
  · intro hc
    obtain ⟨i, hi, hp⟩ := List.any_eq_true.1 hc
    rw [List.mem_range] at hi
    have hp' := by simpa only [Bool.and_eq_true, bne_iff_ne] using hp
    have hnone : broadcastDim (dimSizes [s1, s2] (maxRank [s1, s2]) i) = none :=
      (broadcastDim_pair_none_iff _ _).2 ⟨hp'.1.1, hp'.1.2, hp'.2⟩
    exact broadcast_error_of_none [s1, s2] i hi hnone
  · rintro ⟨e, he⟩
    have hr := herr e he
    apply List.any_eq_true.2
    refine ⟨e.dim, List.mem_range.2 hr.1, ?_⟩
    simp only [Bool.and_eq_true, bne_iff_ne]
    exact ⟨⟨hr.2.1, hr.2.2.1⟩, hr.2.2.2.1⟩

/-- C2 witness: the theorem applied to the concrete incompatible pair
`[2,3]`, `[2,4]`, whose error reports dimension 1 with sizes 3 and 4. -/
theorem C2_broadcast_incompatible_witness :
    hasConflict [2, 3] [2, 4] = true ∧
    ReportsConflict [2, 3] [2, 4] ⟨1, [3, 4]⟩ :=
  ⟨by decide, (C2_broadcast_incompatible [2, 3] [2, 4]).2.1 ⟨1, [3, 4]⟩ rfl⟩

/-! ## Claim C3 -/

/-- C3: operands of shape `[3,1]` and `[1,4]` broadcast to `[3,4]`, and for
`0 ≤ i < 3`, `0 ≤ j < 4` the lazy expression's element at `[i,j]` is the
elementwise function applied to operand 0's value at `[i,0]` and operand 1's
value at `[0,j]`. -/
theorem C3_scenario {α β γ : Type} (f : α → β → γ) (v1 : List Nat → α)
    (v2 : List Nat → β) (i j : Nat) (_hi : i < 3) (_hj : j < 4) :
    broadcast [[3, 1], [1, 4]] = Except.ok [3, 4] ∧
    (numpyNaryExpr f ⟨[3, 1], v1⟩ ⟨[1, 4], v2⟩).atIdx [i, j] =
      f (v1 [i, 0]) (v2 [0, j]) :=
  ⟨rfl, rfl⟩

/-- C3 witness: the scenario at `i = 2`, `j = 3` with addition over sums. -/
theorem C3_scenario_witness :
    2 < 3 ∧ 3 < 4 ∧
    (broadcast [[3, 1], [1, 4]] = Except.ok [3, 4] ∧
     (numpyNaryExpr Nat.add ⟨[3, 1], List.sum⟩ ⟨[1, 4], List.sum⟩).atIdx [2, 3] =
       Nat.add (List.sum [2, 0]) (List.sum [0, 3])) :=
  ⟨by decide, by decide,
   C3_scenario Nat.add List.sum List.sum 2 3 (by decide) (by decide)⟩

/-! ## Claim C4 -/

/-- C4: `at` is deterministic and referentially transparent: two calls with
the same index on the unmodified expression return equal results, and a call
leaves the expression (hence its operands) unchanged. -/
theorem C4_at_deterministic {α β γ : Type} (e : LazyBinExpr α β γ)
    (idx1 idx2 : List Nat) (h : idx1 = idx2) :
    (e.atRun idx1).1 = ((e.atRun idx1).2.atRun idx2).1 ∧
    (e.atRun idx1).2 = e := by
  subst h
  exact ⟨rfl, rfl⟩

/-- C4 witness: determinism at a concrete expression and index. -/
theorem C4_at_deterministic_witness :
    ([0] : List Nat) = [0] ∧
    (((numpyNaryExpr Nat.add ⟨[2], List.sum⟩ ⟨[2], List.sum⟩).atRun [0]).1 =
       (((numpyNaryExpr Nat.add ⟨[2], List.sum⟩ ⟨[2], List.sum⟩).atRun
           [0]).2.atRun [0]).1 ∧
     ((numpyNaryExpr Nat.add ⟨[2], List.sum⟩ ⟨[2], List.sum⟩).atRun [0]).2 =
       numpyNaryExpr Nat.add ⟨[2], List.sum⟩ ⟨[2], List.sum⟩) :=
  ⟨rfl, C4_at_deterministic
    (numpyNaryExpr Nat.add ⟨[2], List.sum⟩ ⟨[2], List.sum⟩) [0] [0] rfl⟩

/-! ## Claim C5 -/

theorem alignedSize_of_le (s : Shape) (r k : Nat) :
    alignedSize s r (r - s.length + k) = s.getD k 1 := by
  unfold alignedSize padLeft
  have hlen : (List.replicate (r - s.length) (1 : Nat)).length = r - s.length :=
    List.length_replicate _ _
  rw [List.getD_eq_getElem?_getD, List.getD_eq_getElem?_getD,
    List.getElem?_append_right (by rw [hlen]; omega)]
  rw [hlen]
  have hkk : r - s.length + k - (r - s.length) = k := by omega
  rw [hkk]

/-- C5: for every output index and operand shape right-aligned under the
output rank, at each dimension `k` of the operand: if the aligned size there
is 1, the mapped component is 0 regardless of the output index's value;
otherwise the component is copied unchanged from the output index. -/
theorem C5_map_broadcast_dim (outputIndex : List Nat) (operandShape : Shape)
    (outputRank k : Nat) (_hr : operandShape.length ≤ outputRank)
    (hk : k < operandShape.length) :
    (alignedSize operandShape outputRank
        (outputRank - operandShape.length + k) = 1 →
      (BroadcastIndexMapper.map outputIndex operandShape outputRank).getD k 0
        = 0) ∧
    (alignedSize operandShape outputRank
        (outputRank - operandShape.length + k) ≠ 1 →
      (BroadcastIndexMapper.map outputIndex operandShape outputRank).getD k 0
        = outputIndex.getD (outputRank - operandShape.length + k) 0) := by
  rw [alignedSize_of_le operandShape outputRank k]
  have hmap : (BroadcastIndexMapper.map outputIndex operandShape
      outputRank).getD k 0 =
      if operandShape.getD k 1 = 1 then 0
      else outputIndex.getD (outputRank - operandShape.length + k) 0 := by
    unfold BroadcastIndexMapper.map
    rw [List.getD_eq_getElem _ _ (by simpa using hk)]
    simp
  constructor
  · intro h1
    rw [hmap, if_pos h1]
  · intro h1
    rw [hmap, if_neg h1]

/-- C5 witness: the operand shape `[1,4]` under output rank 2, at its
size-1 dimension `k = 0`, with output index `[7,5]`. -/
theorem C5_map_broadcast_dim_witness :
    ([1, 4] : Shape).length ≤ 2 ∧ 0 < ([1, 4] : Shape).length ∧
    ((alignedSize [1, 4] 2 (2 - ([1, 4] : Shape).length + 0) = 1 →
        (BroadcastIndexMapper.map [7, 5] [1, 4] 2).getD 0 0 = 0) ∧
     (alignedSize [1, 4] 2 (2 - ([1, 4] : Shape).length + 0) ≠ 1 →
        (BroadcastIndexMapper.map [7, 5] [1, 4] 2).getD 0 0 =
          ([7, 5] : List Nat).getD (2 - ([1, 4] : Shape).length + 0) 0)) :=
  ⟨by decide, by decide,
   C5_map_broadcast_dim [7, 5] [1, 4] 2 0 (by decide) (by decide)⟩

/-! ## Claim C6 -/

/-- C6: `promote` is commutative and idempotent on pairs, total by
construction, and equal to the lattice maximum (its rank is the maximum of
the input ranks). -/
theorem C6_promote_comm_idem :
    ∀ a b : ElementType,
      promote [a, b] = promote [b, a] ∧ promote [a, a] = a ∧
      promote [a, b] = promote2 a b ∧
      (promote2 a b).rank = max a.rank b.rank := by decide

/-! ## Claim C7 -/

/-- C7: a scalar operand (rank 0) combined with an array of shape `[5]`
broadcasts to `[5]`; every output index maps the scalar operand to the empty
index `[]`; and the expression's element at `[i]` applies the function to the
scalar's single value and the array's value at `[i]`. -/
theorem C7_scalar_broadcast {α β γ : Type} (f : α → β → γ)
    (v1 : List Nat → α) (v2 : List Nat → β) (i : Nat) (_hi : i < 5) :
    broadcast [[], [5]] = Except.ok [5] ∧
    (∀ idx : List Nat, ∀ r : Nat, BroadcastIndexMapper.map idx [] r = []) ∧
    (numpyNaryExpr f ⟨[], v1⟩ ⟨[5], v2⟩).atIdx [i] = f (v1 []) (v2 [i]) :=
  ⟨rfl, fun _ _ => rfl, rfl⟩

/-- C7 witness: the scenario at `i = 4` with addition over sums. -/
theorem C7_scalar_broadcast_witness :
    4 < 5 ∧
    (broadcast [[], [5]] = Except.ok [5] ∧
     (∀ idx : List Nat, ∀ r : Nat, BroadcastIndexMapper.map idx [] r = []) ∧
     (numpyNaryExpr Nat.add ⟨[], List.sum⟩ ⟨[5], List.sum⟩).atIdx [4] =
       Nat.add (List.sum []) (List.sum [4])) :=
  ⟨by decide, C7_scalar_broadcast Nat.add List.sum List.sum 4 (by decide)⟩

/-! ## Claim C8 -/

/-- C8: the index mapper is the identity when the operand shape equals the
output shape: every output index valid for that shape is returned
unchanged. -/
theorem C8_map_identity (s : Shape) (idx : List Nat) (hv : ValidIndex idx s) :
    BroadcastIndexMapper.map idx s s.length = idx := by
  obtain ⟨hlen, hbound⟩ := hv
  apply List.ext_getElem
  · simp [BroadcastIndexMapper.map, hlen]
  · intro k h1 h2
    simp only [BroadcastIndexMapper.map, List.getElem_map, List.getElem_range]
    rw [Nat.sub_self, Nat.zero_add]
    by_cases h : s.getD k 1 = 1
    · rw [if_pos h]
      have hk' : k < idx.length := h2
      have hb := hbound k hk'
      rw [h] at hb
      rw [← List.getD_eq_getElem idx 0 h2]
      omega
    · rw [if_neg h]
      exact List.getD_eq_getElem idx 0 h2

/-- C8 witness: the identity case at shape `[2,3]` and index `[1,2]`. -/
theorem C8_map_identity_witness :
    ValidIndex [1, 2] [2, 3] ∧
    BroadcastIndexMapper.map [1, 2] [2, 3] ([2, 3] : Shape).length = [1, 2] :=
  ⟨by decide, C8_map_identity [2, 3] [1, 2] (by decide)⟩

/-! ## Claim C9 -/

/-- C9: the named operation `bitwise_xor` is the n-ary expression
instantiation bound to the elementwise function `__xor__`, so its element at
every in-range output index of a compatible operand pair is `__xor__` applied
to the operands' values at their mapped indices. -/
theorem C9_bitwise_xor_binding (op1 op2 : Operand Nat) (out : Shape)
    (idx : List Nat) (_hok : broadcast [op1.shape, op2.shape] = Except.ok out)
    (_hv : ValidIndex idx out) :
    bitwise_xor op1 op2 = numpyNaryExpr __xor__ op1 op2 ∧
    (bitwise_xor op1 op2).atIdx idx =
      __xor__
        (op1.value (BroadcastIndexMapper.map idx op1.shape
          (max op1.shape.length op2.shape.length)))
        (op2.value (BroadcastIndexMapper.map idx op2.shape
          (max op1.shape.length op2.shape.length))) :=
  ⟨rfl, rfl⟩

/-- C9 witness: the binding evaluated on two shape-`[2]` operands at
index `[1]`. -/
theorem C9_bitwise_xor_binding_witness :
    broadcast [([2] : Shape), [2]] = Except.ok [2] ∧ ValidIndex [1] [2] ∧
    (bitwise_xor ⟨[2], List.sum⟩ ⟨[2], List.sum⟩ =
       numpyNaryExpr __xor__ ⟨[2], List.sum⟩ ⟨[2], List.sum⟩ ∧
     (bitwise_xor ⟨[2], List.sum⟩ ⟨[2], List.sum⟩).atIdx [1] =
       __xor__ (List.sum (BroadcastIndexMapper.map [1] [2] 1))
               (List.sum (BroadcastIndexMapper.map [1] [2] 1))) :=
  ⟨rfl, by decide,
   C9_bitwise_xor_binding ⟨[2], List.sum⟩ ⟨[2], List.sum⟩ [2] [1] rfl (by decide)⟩

/-! ## Claim C10 -/

/-- C10: `io::_io::TextIOWrapper::readline` is the very same functor as
`__builtin__::file::readline`: the two are definitionally equal, hence agree
on every stream. -/
theorem C10_readline_same_functor :
    io._io.TextIOWrapper.readline = __builtin__.file.readline ∧
    ∀ stream, io._io.TextIOWrapper.readline stream =
      __builtin__.file.readline stream :=
  ⟨rfl, fun _ => rfl⟩
